import Mathlib

/-!
Verification of the attribute-resolution core (src/attr.c) of libgit2.

The file src/attr.c is the orchestration layer: the single- and
multi-attribute resolvers (`git_attr_get`, `git_attr_get_many_with_session`),
the enumeration (`git_attr_foreach`), the value classifier
(`git_attr_value`), and the collector (`collect_attr_files` with its
helpers `attr_decide_sources`, `push_attr_source`, `push_attr_file`,
`push_one_attr`).  Its collaborators (the attribute-file parser and
pattern matcher in attr_file.c, the rule cache, the vector and path
utilities) are outside the provided sources; where a definition stands in
for one of them it is marked `Modelled from the spec:` and follows the
specification's description of that collaborator.
-/

set_option linter.unusedVariables false

/-! ## Data model -/

/-- Attribute values as stored in assignments.  The C code represents a
value as a `const char *` that is either one of the interned sentinels
`git_attr__true`, `git_attr__false`, `git_attr__unset` (src/attr.c lines
18-20) or an ordinary parsed string; the sentinels are compared by
pointer, so a parsed string is never equal to a sentinel.  A possibly-NULL
value pointer is `Option AttrVal`, with `none` for NULL. -/
inductive AttrVal where
  | vTrue
  | vFalse
  | vUnset
  | vStr (s : String)
  deriving DecidableEq, Repr

/-- The classification enum `git_attr_value_t` (UNSPECIFIED, TRUE, FALSE,
STRING). -/
inductive GitAttrValueT where
  | unspecified
  | isTrue
  | isFalse
  | isString
  deriving DecidableEq, Repr

/-- Embeds `git_attr_value` (src/attr.c lines 22-34): a NULL pointer or
the unset sentinel classifies as UNSPECIFIED, the true and false
sentinels as TRUE and FALSE, and any other string as STRING. -/
def git_attr_value : Option AttrVal → GitAttrValueT
  | none => .unspecified
  | some .vUnset => .unspecified
  | some .vTrue => .isTrue
  | some .vFalse => .isFalse
  | some (.vStr _) => .isString

/-- One attribute assignment: a name bound to a value
(`git_attr_assignment`, with the name hash kept abstract). -/
structure Assignment where
  name : String
  value : AttrVal
  deriving DecidableEq, Repr

/-- One rule of an attribute file: a pattern plus its assignment list
(`git_attr_rule`).  The pattern matcher `git_attr_rule__match` lives in
attr_file.c, outside the provided sources, so the compiled pattern is
abstracted to its observable behaviour: the boolean test `matches` of a
candidate path (negation and directory-only handling are internal to that
test). -/
structure Rule where
  matchesPath : String → Bool
  assigns : List Assignment

/-- A parsed attribute file: its ordered rule list (`git_attr_file`;
source tag, signature and arena are irrelevant to resolution). -/
structure AttrFile where
  rules : List Rule

/-- Modelled from the spec: `git_attr_file__foreach_matching_rule` is a
macro of attr_file.h (outside the provided sources) that iterates the
file's rules in reverse order — "later rules in the same file override
earlier ones for the same attribute on a match" — keeping exactly the
rules whose pattern matches the queried path. -/
def matchingRules (file : AttrFile) (path : String) : List Rule :=
  file.rules.reverse.filter (fun r => r.matchesPath path)

/-- Modelled from the spec: `git_vector_bsearch` over a rule's assignment
list (compared by name hash, then name) is outside the provided sources;
the list is "sorted and deduplicated at parse time", so the binary search
finds the unique assignment carrying the requested name when there is
one, which is the first (and only) such entry. -/
def attr_bsearch (assigns : List Assignment) (name : String) : Option Assignment :=
  assigns.find? (fun a => a.name == name)

/-! ## Single-attribute resolver -/

/-- The inner loop of `git_attr_get` (src/attr.c lines 80-91): walk the
matching rules of one file, returning the first assignment that the
binary search finds. -/
def attr_rule_walk (rules : List Rule) (name : String) : Option Assignment :=
  match rules with
  | [] => none
  | r :: rest =>
    match attr_bsearch r.assigns name with
    | some a => some a
    | none => attr_rule_walk rest name

/-- Embeds `git_attr_get` (src/attr.c lines 45-98) after the file vector
has been collected: `*value` starts as NULL (line 65); the files are
walked in order and the first assignment found for `name` in a matching
rule is returned (lines 80-91, the `goto cleanup` stopping the walk); a
result of `none` models the NULL value, i.e. UNSPECIFIED. -/
def git_attr_get (files : List AttrFile) (path name : String) : Option AttrVal :=
  match files with
  | [] => none
  | file :: rest =>
    match attr_rule_walk (matchingRules file path) name with
    | some a => some a.value
    | none => git_attr_get rest path name

/-- All rules that match `path`, over the whole collected vector, in the
order the resolvers visit them. -/
def allRules (files : List AttrFile) (path : String) : List Rule :=
  files.flatMap (fun f => matchingRules f path)

/-- The assignments of all matching rules, flattened in visit order. -/
def allMatchingAssigns (files : List AttrFile) (path : String) : List Assignment :=
  (allRules files path).flatMap (fun r => r.assigns)

/-! ### Helper lemmas for the resolver -/

theorem attr_find?_append {α} (p : α → Bool) (l₁ l₂ : List α) :
    (l₁ ++ l₂).find? p
      = match l₁.find? p with
        | some a => some a
        | none => l₂.find? p := by
  induction l₁ with
  | nil => rfl
  | cons a l ih =>
    by_cases h : p a <;> simp [List.find?, h, ih]

theorem attr_rule_walk_append (l₁ l₂ : List Rule) (name : String) :
    attr_rule_walk (l₁ ++ l₂) name
      = match attr_rule_walk l₁ name with
        | some a => some a
        | none => attr_rule_walk l₂ name := by
  induction l₁ with
  | nil => rfl
  | cons r l ih =>
    show (match attr_bsearch r.assigns name with
          | some a => some a
          | none => attr_rule_walk (l ++ l₂) name)
        = (match (match attr_bsearch r.assigns name with
                  | some a => some a
                  | none => attr_rule_walk l name) with
           | some a => some a
           | none => attr_rule_walk l₂ name)
    cases attr_bsearch r.assigns name with
    | some a => rfl
    | none => rw [ih]

theorem attr_rule_walk_eq_find? (rules : List Rule) (name : String) :
    attr_rule_walk rules name
      = (rules.flatMap (fun r => r.assigns)).find? (fun a => a.name == name) := by
  induction rules with
  | nil => rfl
  | cons r rest ih =>
    rw [List.flatMap_cons, attr_find?_append]
    show (match attr_bsearch r.assigns name with
          | some a => some a
          | none => attr_rule_walk rest name) = _
    simp only [attr_bsearch]
    rw [ih]
    cases List.find? (fun a => a.name == name) r.assigns <;> rfl

theorem attr_get_eq_walk (files : List AttrFile) (path name : String) :
    git_attr_get files path name
      = (attr_rule_walk (allRules files path) name).map (fun a => a.value) := by
  induction files with
  | nil => rfl
  | cons f rest ih =>
    have h1 : allRules (f :: rest) path = matchingRules f path ++ allRules rest path := by
      simp [allRules]
    rw [h1, attr_rule_walk_append]
    show (match attr_rule_walk (matchingRules f path) name with
          | some a => some a.value
          | none => git_attr_get rest path name) = _
    cases attr_rule_walk (matchingRules f path) name with
    | some a => rfl
    | none => rw [ih]

theorem attr_get_eq_find? (files : List AttrFile) (path name : String) :
    git_attr_get files path name
      = ((allMatchingAssigns files path).find?
          (fun a => a.name == name)).map (fun a => a.value) := by
  rw [attr_get_eq_walk, allMatchingAssigns, attr_rule_walk_eq_find?]

/-- C1: Single-attribute lookup: over the collected file vector,
`git_attr_get` walks the files in order, and inside each file the
matching rules, binary-searching each matching rule's assignment list for
the requested name; the first assignment found is the returned value and
the walk stops there — equivalently, the result is the first assignment
carrying the name in the flattened sequence of matching-rule assignments
— and when no matching rule carries the name the result is NULL
(UNSPECIFIED). -/
theorem git_attr_get_first_assignment (files : List AttrFile) (path name : String) :
    git_attr_get files path name
      = ((allMatchingAssigns files path).find?
          (fun a => a.name == name)).map (fun a => a.value) :=
  attr_get_eq_find? files path name

/-! ## Enumeration (`git_attr_foreach`) -/

/-- The assignment loop of `git_attr_foreach` (src/attr.c lines 231-244):
walk one rule's assignments in order, delivering each whose name is not in
the `seen` map and marking it seen.  Returns the updated seen set and the
delivered assignments, modelling a callback that always returns 0. -/
def attr_foreach_assigns (seen : List String) :
    List Assignment → List String × List Assignment
  | [] => (seen, [])
  | a :: rest =>
    if a.name ∈ seen then attr_foreach_assigns seen rest
    else
      let p := attr_foreach_assigns (a.name :: seen) rest
      (p.1, a :: p.2)

/-- The rule loop of `git_attr_foreach` (src/attr.c line 229): the matching
rules of one file, threading the seen set. -/
def attr_foreach_rules (seen : List String) :
    List Rule → List String × List Assignment
  | [] => (seen, [])
  | r :: rest =>
    let p := attr_foreach_assigns seen r.assigns
    let q := attr_foreach_rules p.1 rest
    (q.1, p.2 ++ q.2)

/-- The file loop of `git_attr_foreach` (src/attr.c line 227). -/
def attr_foreach_files (seen : List String) (path : String) :
    List AttrFile → List String × List Assignment
  | [] => (seen, [])
  | f :: rest =>
    let p := attr_foreach_rules seen (matchingRules f path)
    let q := attr_foreach_files p.1 path rest
    (q.1, p.2 ++ q.2)

/-- Embeds `git_attr_foreach` (src/attr.c lines 197-254) as the sequence
of `(name, value)` pairs delivered to the callback: files in collected
order, matching rules per file, assignments per rule, each name delivered
at most once (the `seen` string map), with a callback that always
returns 0. -/
def git_attr_foreach_pairs (files : List AttrFile) (path : String) : List Assignment :=
  (attr_foreach_files [] path files).2

/-- The seen set resulting from scanning a list of assignments. -/
def attr_seen_out (seen : List String) : List Assignment → List String
  | [] => seen
  | a :: rest =>
    if a.name ∈ seen then attr_seen_out seen rest
    else attr_seen_out (a.name :: seen) rest

/-- First-occurrence filter over a flat assignment sequence. -/
def attr_seen_filter (seen : List String) : List Assignment → List Assignment
  | [] => []
  | a :: rest =>
    if a.name ∈ seen then attr_seen_filter seen rest
    else a :: attr_seen_filter (a.name :: seen) rest

theorem attr_foreach_assigns_eq (seen : List String) (l : List Assignment) :
    attr_foreach_assigns seen l = (attr_seen_out seen l, attr_seen_filter seen l) := by
  induction l generalizing seen with
  | nil => rfl
  | cons a rest ih =>
    by_cases h : a.name ∈ seen <;>
      simp [attr_foreach_assigns, attr_seen_out, attr_seen_filter, h, ih]

theorem attr_seen_filter_append (seen : List String) (l₁ l₂ : List Assignment) :
    attr_seen_filter seen (l₁ ++ l₂)
      = attr_seen_filter seen l₁ ++ attr_seen_filter (attr_seen_out seen l₁) l₂ := by
  induction l₁ generalizing seen with
  | nil => rfl
  | cons a rest ih =>
    by_cases h : a.name ∈ seen <;>
      simp [attr_seen_filter, attr_seen_out, h, ih]

theorem attr_seen_out_append (seen : List String) (l₁ l₂ : List Assignment) :
    attr_seen_out seen (l₁ ++ l₂)
      = attr_seen_out (attr_seen_out seen l₁) l₂ := by
  induction l₁ generalizing seen with
  | nil => rfl
  | cons a rest ih =>
    by_cases h : a.name ∈ seen <;>
      simp [attr_seen_out, h, ih]

theorem attr_foreach_rules_eq (seen : List String) (rules : List Rule) :
    attr_foreach_rules seen rules
      = (attr_seen_out seen (rules.flatMap (fun r => r.assigns)),
         attr_seen_filter seen (rules.flatMap (fun r => r.assigns))) := by
  induction rules generalizing seen with
  | nil => rfl
  | cons r rest ih =>
    simp [attr_foreach_rules, attr_foreach_assigns_eq, ih,
          attr_seen_out_append, attr_seen_filter_append]

theorem attr_foreach_files_eq (seen : List String) (path : String)
    (files : List AttrFile) :
    attr_foreach_files seen path files
      = (attr_seen_out seen (allMatchingAssigns files path),
         attr_seen_filter seen (allMatchingAssigns files path)) := by
  induction files generalizing seen with
  | nil => rfl
  | cons f rest ih =>
    simp [attr_foreach_files, attr_foreach_rules_eq, ih, allMatchingAssigns, allRules,
          attr_seen_out_append, attr_seen_filter_append]

theorem attr_foreach_pairs_eq (files : List AttrFile) (path : String) :
    git_attr_foreach_pairs files path
      = attr_seen_filter [] (allMatchingAssigns files path) := by
  rw [git_attr_foreach_pairs, attr_foreach_files_eq]

/-- The seen filter preserves the first occurrence of any name not yet
seen: searching the filtered sequence for a name finds exactly what
searching the raw sequence finds. -/
theorem attr_seen_filter_find? (seen : List String) (l : List Assignment)
    (n : String) (hn : n ∉ seen) :
    (attr_seen_filter seen l).find? (fun a => a.name == n)
      = l.find? (fun a => a.name == n) := by
  induction l generalizing seen with
  | nil => rfl
  | cons a rest ih =>
    by_cases hs : a.name ∈ seen
    · have hne : (a.name == n) = false := by
        by_cases h : a.name = n
        · exact absurd (h ▸ hs) hn
        · simp [h]
      simp [attr_seen_filter, hs, List.find?, hne, ih seen hn]
    · by_cases h : a.name = n
      · simp [attr_seen_filter, hs, List.find?, h, hn]
      · have hne : (a.name == n) = false := by simp [h]
        have hn' : n ∉ a.name :: seen := by
          intro hx
          rcases List.mem_cons.mp hx with hx | hx
          · exact h hx.symm
          · exact hn hx
        simp [attr_seen_filter, hs, List.find?, hne, ih _ hn']

/-- C3: consistency of `git_attr_get` with `git_attr_foreach`: for every
attribute name and path (over the same collected file vector), the value
`git_attr_get` returns equals the value of the first pair carrying that
name in the sequence `git_attr_foreach` delivers to its callback; when
the foreach sequence has no pair with that name, `git_attr_get` returns
NULL (UNSPECIFIED). -/
theorem git_attr_get_matches_foreach (files : List AttrFile) (path n : String) :
    git_attr_get files path n
      = ((git_attr_foreach_pairs files path).find?
          (fun a => a.name == n)).map (fun a => a.value) := by
  rw [attr_foreach_pairs_eq,
      attr_seen_filter_find? [] (allMatchingAssigns files path) n (by simp),
      attr_get_eq_find?]

/-! ## Value classification (`git_attr_value`) -/

/-- C7 counterexample: a rule that explicitly unsets `text` on a matching
path makes `git_attr_get` return the unset sentinel, while with no rule
at all it returns NULL — the two returned values are distinct — yet
`git_attr_value` classifies both as UNSPECIFIED, so the classification of
an explicitly unset attribute is not distinct from that of a
never-assigned one. -/
theorem git_attr_value_unset_counterexample :
    git_attr_get [⟨[⟨fun _ => true, [⟨"text", AttrVal.vUnset⟩]⟩]⟩] "a.c" "text"
        = some AttrVal.vUnset
  ∧ git_attr_get [] "a.c" "text" = none
  ∧ some AttrVal.vUnset ≠ (none : Option AttrVal)
  ∧ git_attr_value (git_attr_get [⟨[⟨fun _ => true, [⟨"text", AttrVal.vUnset⟩]⟩]⟩] "a.c" "text")
      = git_attr_value (git_attr_get [] "a.c" "text") :=
  ⟨rfl, rfl, fun h => Option.noConfusion h, rfl⟩

/-- C7 (amended): the value domain distinguishes UNSET from UNSPECIFIED —
the unset sentinel returned for an explicitly unset attribute is a
different value from the NULL returned when no rule assigned the
attribute — but `git_attr_value` classifies both of those as
UNSPECIFIED; it maps the five cases TRUE, FALSE, STRING, UNSET and
absence onto exactly four distinct classifications, UNSET and absence
sharing UNSPECIFIED. -/
theorem git_attr_value_classification (s : String) :
    some AttrVal.vUnset ≠ (none : Option AttrVal)
  ∧ git_attr_value (some AttrVal.vUnset) = GitAttrValueT.unspecified
  ∧ git_attr_value none = GitAttrValueT.unspecified
  ∧ git_attr_value (some AttrVal.vTrue) = GitAttrValueT.isTrue
  ∧ git_attr_value (some AttrVal.vFalse) = GitAttrValueT.isFalse
  ∧ git_attr_value (some (AttrVal.vStr s)) = GitAttrValueT.isString
  ∧ [GitAttrValueT.unspecified, GitAttrValueT.isTrue,
     GitAttrValueT.isFalse, GitAttrValueT.isString].Nodup :=
  ⟨fun h => Option.noConfusion h, rfl, rfl, rfl, rfl, rfl, by decide⟩

/-! ## Multi-attribute resolver (`git_attr_get_many_with_session`) -/

/-- The arguments of `git_attr_get_many_with_session` that the C surface
checks for NULL (the session does not influence the result and the
repository only through the collected vector, so only its nullness is
kept): `none` models a NULL pointer, `numAttr` is the separate
`num_attr` count of the `names` array. -/
structure ManyArgs where
  values : Option (List (Option AttrVal))
  repoNull : Bool
  pathname : Option String
  names : Option (List String)
  numAttr : Nat

/-- One matching rule's effect on the per-name search state of
`git_attr_get_many_with_session` (src/attr.c lines 149-168): slots whose
assignment was already found are skipped, the others binary-search this
rule. -/
def attr_many_step (names : List String) (r : Rule) (acc : List (Option Assignment)) :
    List (Option Assignment) :=
  List.zipWith
    (fun n f =>
      match f with
      | some a => some a
      | none => attr_bsearch r.assigns n) names acc

/-- The `info[]` array after the file/rule walk of
`git_attr_get_many_with_session` (lines 145-170): every slot starts with
no found assignment (`git__calloc`, line 142) and the matching rules are
visited in the same order as in `git_attr_get`.  The early `goto cleanup`
once `num_found == num_attr` (line 165) is not modelled separately: once
every slot is found, further steps keep each slot unchanged, so the state
is the same. -/
def attr_many_found (files : List AttrFile) (path : String) (names : List String) :
    List (Option Assignment) :=
  (allRules files path).foldl (fun acc r => attr_many_step names r acc)
    (names.map (fun _ => none))

/-- Embeds `git_attr_get_many_with_session` (src/attr.c lines 106-183)
given the outcome of `collect_attr_files`: `num_attr == 0` returns 0 at
once (lines 125-126) before any argument check; a NULL `values`, `repo`,
`pathname` or `names` fails the corresponding `GIT_ASSERT_ARG` (lines
128-131, returning -1) with the caller's buffer untouched; a collection
error is returned with the buffer untouched (line 139, `goto cleanup`
precedes every write to `values`); on success slot `k` receives the found
assignment's value or NULL (lines 163 and 172-175). -/
def git_attr_get_many_with_session (args : ManyArgs)
    (collectResult : Except Int (List AttrFile)) :
    Int × Option (List (Option AttrVal)) :=
  if args.numAttr = 0 then (0, args.values)
  else
    match args.values, args.repoNull, args.pathname, args.names with
    | some _, false, some path, some names =>
      (match collectResult with
       | .error e => (e, args.values)
       | .ok files =>
         (0, some ((attr_many_found files path names).map
              (fun f => f.map (fun a => a.value)))))
    | _, _, _, _ => (-1, args.values)

/-! ### Helper lemmas for the multi-attribute resolver -/

theorem attr_zipWith_map_self {γ : Type} (h : String → γ → γ) (g : String → γ)
    (l : List String) :
    List.zipWith h l (l.map g) = l.map (fun n => h n (g n)) := by
  induction l with
  | nil => rfl
  | cons a t ih => simp [ih]

theorem attr_many_fold_eq (rules : List Rule) (names : List String)
    (g : String → Option Assignment) :
    rules.foldl (fun acc r => attr_many_step names r acc) (names.map g)
      = names.map (fun n =>
          match g n with
          | some a => some a
          | none => attr_rule_walk rules n) := by
  induction rules generalizing g with
  | nil =>
    have hg : (fun n => match g n with
               | some a => some a
               | none => attr_rule_walk [] n) = g := by
      funext n
      cases g n <;> rfl
    rw [List.foldl_nil, hg]
  | cons r rest ih =>
    rw [List.foldl_cons]
    have h1 : attr_many_step names r (names.map g)
        = names.map (fun n =>
            match g n with
            | some a => some a
            | none => attr_bsearch r.assigns n) := by
      rw [attr_many_step, attr_zipWith_map_self]
    rw [h1, ih]
    congr 1
    funext n
    cases g n <;> rfl

theorem attr_many_found_eq (files : List AttrFile) (path : String) (names : List String) :
    attr_many_found files path names
      = names.map (fun n => attr_rule_walk (allRules files path) n) := by
  rw [attr_many_found, attr_many_fold_eq]

theorem attr_length_ne_zero {α} (l : List α) (h : l ≠ []) : l.length ≠ 0 :=
  fun hz => h (List.length_eq_zero.mp hz)

theorem git_attr_get_many_with_session_ok (v0 : List (Option AttrVal)) (path : String)
    (ns : List String) (files : List AttrFile) (hne : ns ≠ []) :
    git_attr_get_many_with_session ⟨some v0, false, some path, some ns, ns.length⟩
        (Except.ok files)
      = (0, some ((attr_many_found files path ns).map
           (fun f => f.map (fun a => a.value)))) := by
  simp only [git_attr_get_many_with_session]
  rw [if_neg (attr_length_ne_zero ns hne)]

/-- C4: index-wise agreement of the multi-attribute lookup with the
single lookup: for every collected file vector, path and non-empty name
list, the i-th slot of the buffer produced by a successful
`git_attr_get_many` equals the value `git_attr_get` returns for the i-th
name. -/
theorem git_attr_get_many_index (v0 : List (Option AttrVal)) (files : List AttrFile)
    (path : String) (ns : List String) (hne : ns ≠ []) (i : Nat) (hi : i < ns.length) :
    ((git_attr_get_many_with_session ⟨some v0, false, some path, some ns, ns.length⟩
        (Except.ok files)).2.getD [])[i]?
      = some (git_attr_get files path (ns.get ⟨i, hi⟩)) := by
  rw [git_attr_get_many_with_session_ok v0 path ns files hne]
  simp only [Option.getD_some]
  rw [attr_many_found_eq, List.map_map, List.getElem?_map,
      List.getElem?_eq_getElem hi]
  simp [attr_get_eq_walk, List.get_eq_getElem]

/-- C4 witness: one name, empty file vector; slot 0 equals the single
lookup's (NULL) answer. -/
theorem git_attr_get_many_index_witness :
    ((git_attr_get_many_with_session
        ⟨some [none], false, some "a.c", some ["text"], ["text"].length⟩
        (Except.ok [])).2.getD [])[0]?
      = some (git_attr_get [] "a.c" (["text"].get ⟨0, by decide⟩)) :=
  git_attr_get_many_index [none] [] "a.c" ["text"] (by decide) 0 (by decide)

/-- C8 counterexample: when collection fails, the output buffer is
returned exactly as the caller provided it — here a slot holding a
non-NULL value — so an error does not leave all output slots NULL. -/
theorem git_attr_get_many_error_counterexample :
    git_attr_get_many_with_session
        ⟨some [some AttrVal.vTrue], false, some "a.c", some ["text"], 1⟩
        (Except.error (-35))
      = (-35, some [some AttrVal.vTrue])
  ∧ some AttrVal.vTrue ≠ (none : Option AttrVal) :=
  ⟨rfl, fun h => Option.noConfusion h⟩

/-- C8 (amended): `git_attr_get_many` never partially fills its output
buffer: on success the buffer is completely overwritten — one slot per
requested name (a found value or NULL), independent of the buffer's
initial contents — while on error the buffer is left exactly as the
caller provided it (the code never writes to it on an error path), not
set to all-NULL. -/
theorem git_attr_get_many_buffer (v0 : List (Option AttrVal)) (files : List AttrFile)
    (path : String) (ns : List String) (e : Int) (hne : ns ≠ []) :
    (∃ out, git_attr_get_many_with_session ⟨some v0, false, some path, some ns, ns.length⟩
          (Except.ok files) = (0, some out)
        ∧ out.length = ns.length)
  ∧ git_attr_get_many_with_session ⟨some v0, false, some path, some ns, ns.length⟩
        (Except.error e) = (e, some v0) := by
  constructor
  · refine ⟨_, git_attr_get_many_with_session_ok v0 path ns files hne, ?_⟩
    rw [attr_many_found_eq]
    simp
  · simp only [git_attr_get_many_with_session]
    rw [if_neg (attr_length_ne_zero ns hne)]

/-- C8 witness: a success with one name fully fills the one-slot buffer;
an error leaves the caller's buffer untouched. -/
theorem git_attr_get_many_buffer_witness :
    (∃ out, git_attr_get_many_with_session
          ⟨some [some AttrVal.vFalse], false, some "a.c", some ["text"], ["text"].length⟩
          (Except.ok []) = (0, some out)
        ∧ out.length = (["text"] : List String).length)
  ∧ git_attr_get_many_with_session
        ⟨some [some AttrVal.vFalse], false, some "a.c", some ["text"], ["text"].length⟩
        (Except.error (-35)) = (-35, some [some AttrVal.vFalse]) :=
  git_attr_get_many_buffer [some AttrVal.vFalse] [] "a.c" ["text"] (-35) (by decide)

/-- C10: calling `git_attr_get_many_with_session` with `num_attr == 0`
returns success (0) immediately — before any argument validation, any
path initialisation and any file collection — and writes nothing to the
output buffer, for every combination of NULL `values`, `repo`,
`pathname` or `names` and for every collection outcome (which is never
consulted). -/
theorem git_attr_get_many_zero (values : Option (List (Option AttrVal)))
    (repoNull : Bool) (pathname : Option String) (names : Option (List String))
    (collectResult : Except Int (List AttrFile)) :
    git_attr_get_many_with_session ⟨values, repoNull, pathname, names, 0⟩ collectResult
      = (0, values) := rfl

/-! ## Collector (`collect_attr_files` and helpers) -/

/-- The tag of `git_attr_file_source_t` (GIT_ATTR_FILE_SOURCE_MEMORY /
FILE / INDEX / COMMIT). -/
inductive SourceType where
  | memory
  | file
  | index
  | commit
  deriving DecidableEq, Repr

/-- `git_attr_file_source`: tag plus `base` and `filename` (the commit id
field is unused by collection with INCLUDE_HEAD, which always reads
HEAD). -/
structure Source where
  typ : SourceType
  base : Option String
  filename : Option String
  deriving DecidableEq, Repr

/-- `GIT_ATTR_FILE` of attr.h: the per-directory attribute file name. -/
def GIT_ATTR_FILE : String := ".gitattributes"

/-- `GIT_ATTR_FILE_INREPO` of attr.h: the file name used inside
`$GIT_DIR/info`. -/
def GIT_ATTR_FILE_INREPO : String := "attributes"

/-- The libgit2 error code `GIT_ENOTFOUND`. -/
def GIT_ENOTFOUND : Int := -3

/-- Embeds `attr_decide_sources` (src/attr.c lines 442-473): the low two
flag bits select and order the per-directory storage backends (0 =
FILE_THEN_INDEX, 1 = INDEX_THEN_FILE, 2 = INDEX_ONLY), each backend kept
only when available (`has_wd` / `has_index`); when the INCLUDE_HEAD bit
(bit 3) is set, the HEAD commit source is appended after those. -/
def attr_decide_sources (flags : Nat) (has_wd has_index : Bool) : List SourceType :=
  (if flags % 4 = 0 then
     (if has_wd then [SourceType.file] else [])
       ++ (if has_index then [SourceType.index] else [])
   else if flags % 4 = 1 then
     (if has_index then [SourceType.index] else [])
       ++ (if has_wd then [SourceType.file] else [])
   else if flags % 4 = 2 then
     (if has_index then [SourceType.index] else [])
   else [])
  ++ (if flags.testBit 3 then [SourceType.commit] else [])

/-- Modelled from the spec: the collaborators of `collect_attr_files`
that are outside the provided sources are abstracted into an
environment.  `cacheGet` is `git_attr_cache__get` (the keyed cache of
parsed files: it returns the parsed file, `none` when the source does not
exist — a negative cache entry, "no contribution" — or an error);
`workdir` is `git_repository_workdir`; `hasIndex` is whether
`git_repository_index__weakptr` produced an index; `infoDir` is
`git_repository_item_path(INFO)`; `dirs` is the directory sequence
`git_path_walk_up` yields, query directory first, work-tree root last
(`[""]` when the resolved directory is "."); `cfgAttrFile` is the
configured `core.attributesfile`; `systemLookup` is the result of
`git_sysdir_find_system_file` for the system attributes file. -/
structure CollectEnv where
  cacheGet : Source → Bool → Except Int (Option AttrFile)
  workdir : Option String
  hasIndex : Bool
  infoDir : String
  dirs : List String
  cfgAttrFile : Option String
  systemLookup : Except Int String

/-- Embeds `push_attr_source` (src/attr.c lines 475-499): a cache error
propagates; a NULL file contributes nothing; otherwise the file is
appended to the vector. -/
def push_attr_source (acc : List AttrFile) (res : Except Int (Option AttrFile)) :
    Except Int (List AttrFile) :=
  match res with
  | .error e => .error e
  | .ok none => .ok acc
  | .ok (some f) => .ok (acc ++ [f])

/-- Embeds `push_attr_file` (src/attr.c lines 501-510): a FILE source at
`base / filename`, always pushed with `allow_macros = true`. -/
def push_attr_file (env : CollectEnv) (acc : List AttrFile)
    (base : Option String) (filename : String) : Except Int (List AttrFile) :=
  push_attr_source acc (env.cacheGet ⟨.file, base, some filename⟩ true)

/-- The per-directory source `{ src[i], path, GIT_ATTR_FILE }` of
`push_one_attr` (src/attr.c line 524). -/
def dirSource (st : SourceType) (d : String) : Source :=
  ⟨st, some d, some GIT_ATTR_FILE⟩

/-- The `allow_macros` decision of `push_one_attr` (src/attr.c line 521):
`info->workdir ? !strcmp(info->workdir, path) : false`. -/
def dirAllow (env : CollectEnv) (d : String) : Bool :=
  match env.workdir with
  | some wd => wd == d
  | none => false

/-- Embeds `push_one_attr` (src/attr.c lines 512-531): decide the source
list for this directory, then push each source with the directory's
single `allow_macros` decision, stopping at the first error. -/
def push_one_attr (env : CollectEnv) (flags : Nat) (acc : List AttrFile) (d : String) :
    Except Int (List AttrFile) :=
  (attr_decide_sources flags env.workdir.isSome env.hasIndex).foldlM
    (fun a st => push_attr_source a (env.cacheGet (dirSource st d) (dirAllow env d)))
    acc

/-- The `$GIT_DIR/info` attributes source pushed first (src/attr.c lines
579-580). -/
def infoSource (env : CollectEnv) : Source :=
  ⟨.file, some env.infoDir, some GIT_ATTR_FILE_INREPO⟩

/-- The C pattern `if ((error = step) < 0) goto cleanup` as sequencing of
fallible stages. -/
def exbind {α β : Type} (x : Except Int α) (f : α → Except Int β) : Except Int β :=
  match x with
  | .error e => .error e
  | .ok a => f a

/-- The info-file stage (src/attr.c lines 579-583): push
`$GIT_DIR/info/attributes`; a NOT_FOUND from it is absorbed. -/
def collect_info_stage (env : CollectEnv) : Except Int (List AttrFile) :=
  match push_attr_file env [] (some env.infoDir) GIT_ATTR_FILE_INREPO with
  | .error e => if e = GIT_ENOTFOUND then .ok [] else .error e
  | .ok l => .ok l

/-- The `core.attributesfile` stage (src/attr.c lines 601-605): pushed
only when configured; an error here aborts. -/
def collect_cfg_stage (env : CollectEnv) (files : List AttrFile) :
    Except Int (List AttrFile) :=
  match env.cfgAttrFile with
  | some cfg => push_attr_file env files none cfg
  | none => .ok files

/-- The system-file stage (src/attr.c lines 607-614): skipped when the
NO_SYSTEM bit (bit 2) is set; a NOT_FOUND from the sysdir lookup is
absorbed, any other lookup error aborts. -/
def collect_sys_stage (env : CollectEnv) (flags : Nat) (files : List AttrFile) :
    Except Int (List AttrFile) :=
  if flags.testBit 2 then .ok files
  else
    match env.systemLookup with
    | .ok p => push_attr_file env files none p
    | .error e => if e = GIT_ENOTFOUND then .ok files else .error e

/-- Embeds `collect_attr_files` (src/attr.c lines 545-623) after path
resolution: in precedence order, the `$GIT_DIR/info/attributes` file
(whose NOT_FOUND is absorbed, lines 581-582), the per-directory files
along the upward walk, the configured `core.attributesfile`, and — unless
the NO_SYSTEM bit (bit 2) is set — the system file, whose missing-path
lookup result is absorbed (lines 612-613).  `attr_setup` (line 557) only
preloads the cache and contributes nothing to the vector; on error the
half-built vector is released and only the error returned. -/
def collect_attr_files (env : CollectEnv) (flags : Nat) :
    Except Int (List AttrFile) :=
  exbind (collect_info_stage env) (fun files₁ =>
    exbind (env.dirs.foldlM (push_one_attr env flags) files₁) (fun files₂ =>
      exbind (collect_cfg_stage env files₂) (fun files₃ =>
        collect_sys_stage env flags files₃)))

/-- The sequence of `(source, allow_macros)` requests `collect_attr_files`
makes to the attribute cache, in order (src/attr.c lines 579-614 together
with `push_one_attr`); an aborting error only truncates the actual
request sequence to a prefix of this one. -/
def collect_requests (env : CollectEnv) (flags : Nat) : List (Source × Bool) :=
  [(infoSource env, true)]
  ++ env.dirs.flatMap (fun d =>
       (attr_decide_sources flags env.workdir.isSome env.hasIndex).map
         (fun st => (dirSource st d, dirAllow env d)))
  ++ (match env.cfgAttrFile with
      | some cfg => [((⟨.file, none, some cfg⟩ : Source), true)]
      | none => [])
  ++ (if flags.testBit 2 then []
      else
        match env.systemLookup with
        | .ok p => [((⟨.file, none, some p⟩ : Source), true)]
        | .error _ => [])

/-- The contribution of one cache answer to the collected vector. -/
def cacheContrib (res : Except Int (Option AttrFile)) : List AttrFile :=
  match res with
  | .ok (some f) => [f]
  | .ok none => []
  | .error _ => []

/-- The info-file part of the collected vector. -/
def infoPart (env : CollectEnv) : List AttrFile :=
  cacheContrib (env.cacheGet (infoSource env) true)

/-- The per-directory part of the collected vector: for each directory of
the upward walk, the selected backends in `attr_decide_sources` order. -/
def dirsPart (env : CollectEnv) (flags : Nat) : List AttrFile :=
  env.dirs.flatMap (fun d =>
    (attr_decide_sources flags env.workdir.isSome env.hasIndex).flatMap
      (fun st => cacheContrib (env.cacheGet (dirSource st d) (dirAllow env d))))

/-- The `core.attributesfile` part of the collected vector. -/
def cfgPart (env : CollectEnv) : List AttrFile :=
  match env.cfgAttrFile with
  | some cfg => cacheContrib (env.cacheGet ⟨.file, none, some cfg⟩ true)
  | none => []

/-- The system-file part of the collected vector. -/
def sysPart (env : CollectEnv) (flags : Nat) : List AttrFile :=
  if flags.testBit 2 then []
  else
    match env.systemLookup with
    | .ok p => cacheContrib (env.cacheGet ⟨.file, none, some p⟩ true)
    | .error _ => []

/-! ### Helper lemmas for the collector -/

theorem attr_ok_bind {α β : Type} (x : α) (g : α → Except Int β) :
    (Except.ok x >>= g) = g x := rfl

theorem push_attr_source_ok (acc : List AttrFile) (f : Option AttrFile) :
    push_attr_source acc (Except.ok f) = Except.ok (acc ++ cacheContrib (Except.ok f)) := by
  cases f <;> simp [push_attr_source, cacheContrib]

theorem push_attr_file_ok (env : CollectEnv) (acc : List AttrFile)
    (base : Option String) (fn : String) (f : Option AttrFile)
    (hf : env.cacheGet ⟨.file, base, some fn⟩ true = Except.ok f) :
    push_attr_file env acc base fn = Except.ok (acc ++ cacheContrib (Except.ok f)) := by
  rw [push_attr_file, hf, push_attr_source_ok]

theorem exbind_ok {α β : Type} (a : α) (f : α → Except Int β) :
    exbind (Except.ok a) f = f a := rfl

theorem push_sources_fold (env : CollectEnv) (d : String)
    (hok : ∀ s b, ∃ f, env.cacheGet s b = Except.ok f)
    (sts : List SourceType) (acc : List AttrFile) :
    sts.foldlM
        (fun a st => push_attr_source a (env.cacheGet (dirSource st d) (dirAllow env d)))
        acc
      = Except.ok (acc ++ sts.flatMap
          (fun st => cacheContrib (env.cacheGet (dirSource st d) (dirAllow env d)))) := by
  induction sts generalizing acc with
  | nil =>
    show Except.ok acc = _
    simp
  | cons st rest ih =>
    obtain ⟨f, hf⟩ := hok (dirSource st d) (dirAllow env d)
    rw [List.foldlM_cons, hf, push_attr_source_ok, attr_ok_bind, ih]
    simp [hf, List.flatMap_cons, List.append_assoc]

theorem push_dirs_fold (env : CollectEnv) (flags : Nat)
    (hok : ∀ s b, ∃ f, env.cacheGet s b = Except.ok f)
    (dirs : List String) (acc : List AttrFile) :
    dirs.foldlM (push_one_attr env flags) acc
      = Except.ok (acc ++ dirs.flatMap (fun d =>
          (attr_decide_sources flags env.workdir.isSome env.hasIndex).flatMap
            (fun st => cacheContrib (env.cacheGet (dirSource st d) (dirAllow env d))))) := by
  induction dirs generalizing acc with
  | nil =>
    show Except.ok acc = _
    simp
  | cons d rest ih =>
    rw [List.foldlM_cons, push_one_attr, push_sources_fold env d hok _ acc,
        attr_ok_bind, ih]
    simp [List.flatMap_cons, List.append_assoc]

theorem collect_info_stage_ok (env : CollectEnv)
    (hok : ∀ s b, ∃ f, env.cacheGet s b = Except.ok f) :
    collect_info_stage env = Except.ok (infoPart env) := by
  obtain ⟨f, hf⟩ := hok ⟨SourceType.file, some env.infoDir, some GIT_ATTR_FILE_INREPO⟩ true
  rw [collect_info_stage, push_attr_file_ok env [] _ _ f hf]
  simp [infoPart, infoSource, cacheContrib, hf]

theorem collect_cfg_stage_ok (env : CollectEnv) (files : List AttrFile)
    (hok : ∀ s b, ∃ f, env.cacheGet s b = Except.ok f) :
    collect_cfg_stage env files = Except.ok (files ++ cfgPart env) := by
  rw [collect_cfg_stage, cfgPart]
  cases hc : env.cfgAttrFile with
  | none =>
    show Except.ok files = Except.ok (files ++ [])
    simp
  | some cfg =>
    obtain ⟨f, hf⟩ := hok ⟨SourceType.file, none, some cfg⟩ true
    show push_attr_file env files none cfg
        = Except.ok (files
            ++ cacheContrib (env.cacheGet ⟨SourceType.file, none, some cfg⟩ true))
    rw [push_attr_file_ok env files none cfg f hf, hf]

theorem collect_sys_stage_ok (env : CollectEnv) (flags : Nat) (files : List AttrFile)
    (hok : ∀ s b, ∃ f, env.cacheGet s b = Except.ok f)
    (hsys : ∀ e, env.systemLookup = Except.error e → e = GIT_ENOTFOUND) :
    collect_sys_stage env flags files = Except.ok (files ++ sysPart env flags) := by
  by_cases ht : flags.testBit 2
  · rw [collect_sys_stage, if_pos ht, sysPart, if_pos ht]
    simp
  · rw [collect_sys_stage, if_neg ht, sysPart, if_neg ht]
    cases hs : env.systemLookup with
    | ok p =>
      obtain ⟨f, hf⟩ := hok ⟨SourceType.file, none, some p⟩ true
      show push_attr_file env files none p
          = Except.ok (files
              ++ cacheContrib (env.cacheGet ⟨SourceType.file, none, some p⟩ true))
      rw [push_attr_file_ok env files none p f hf, hf]
    | error e =>
      show (if e = GIT_ENOTFOUND then Except.ok files else Except.error e)
          = Except.ok (files ++ [])
      rw [if_pos (hsys e hs)]
      simp

/-- The collected vector, under error-free cache answers, decomposes into
the four precedence segments. -/
theorem collect_attr_files_shape (env : CollectEnv) (flags : Nat)
    (hok : ∀ s b, ∃ f, env.cacheGet s b = Except.ok f)
    (hsys : ∀ e, env.systemLookup = Except.error e → e = GIT_ENOTFOUND) :
    collect_attr_files env flags
      = Except.ok (infoPart env ++ dirsPart env flags ++ cfgPart env ++ sysPart env flags) := by
  rw [collect_attr_files, collect_info_stage_ok env hok]
  simp only [exbind_ok]
  rw [push_dirs_fold env flags hok env.dirs (infoPart env)]
  simp only [exbind_ok]
  rw [collect_cfg_stage_ok env _ hok]
  simp only [exbind_ok]
  rw [collect_sys_stage_ok env flags _ hok hsys]
  simp [dirsPart, List.append_assoc]

theorem attr_flatMap_const_nil {α β : Type} (l : List α) :
    (l.flatMap (fun _ => ([] : List β))) = [] := by
  induction l with
  | nil => rfl
  | cons a t ih => simp [List.flatMap_cons, ih]

theorem dirAllow_false (env : CollectEnv) (d : String)
    (h : dirAllow env d = false) : env.workdir ≠ some d := by
  intro hw
  rw [dirAllow, hw] at h
  simp at h

theorem dirAllow_true (env : CollectEnv) (d : String)
    (hw : env.workdir = some d) : dirAllow env d = true := by
  rw [dirAllow, hw]
  simp

/-- C2: Collector precedence: when the cache answers without error (a
missing source is an ok-`none` answer, its negative entry) and the
system-file lookup either succeeds or reports NOT_FOUND, the vector
handed to the resolver is ordered highest to lowest precedence as the
`$GIT_DIR/info/attributes` contribution, then the per-directory
`.gitattributes` contributions from the query path's directory upward to
the work-tree root, then the configured `core.attributesfile`
contribution, and last the system-file contribution; the system part is
empty when the NO_SYSTEM bit is set, and with the bit clear and the
system file present it is exactly that file. -/
theorem collect_attr_files_precedence (env : CollectEnv) (flags : Nat)
    (hok : ∀ s b, ∃ f, env.cacheGet s b = Except.ok f)
    (hsys : ∀ e, env.systemLookup = Except.error e → e = GIT_ENOTFOUND) :
    collect_attr_files env flags
      = Except.ok (infoPart env ++ dirsPart env flags ++ cfgPart env ++ sysPart env flags)
  ∧ (flags.testBit 2 = true → sysPart env flags = [])
  ∧ (∀ p f, flags.testBit 2 = false → env.systemLookup = Except.ok p →
       env.cacheGet ⟨.file, none, some p⟩ true = Except.ok (some f) →
       sysPart env flags = [f]) := by
  refine ⟨collect_attr_files_shape env flags hok hsys, ?_, ?_⟩
  · intro h
    rw [sysPart, if_pos h]
  · intro p f h hs hc
    rw [sysPart, if_neg (by simp [h]), hs]
    show cacheContrib (env.cacheGet ⟨SourceType.file, none, some p⟩ true) = [f]
    rw [hc]
    rfl

/-- A concrete collector environment in which every source exists. -/
def envC2 : CollectEnv :=
  { cacheGet := fun _ _ => Except.ok (some ⟨[]⟩)
    workdir := some "/w/"
    hasIndex := false
    infoDir := "/g/info"
    dirs := ["/w/"]
    cfgAttrFile := none
    systemLookup := Except.ok "/etc/gitattributes" }

/-- C2 witness: in `envC2`, collection succeeds with the four-part
vector; the system part is dropped under the NO_SYSTEM bit (flags 4) and
is the system file without it (flags 0). -/
theorem collect_attr_files_precedence_witness :
    collect_attr_files envC2 0
      = Except.ok (infoPart envC2 ++ dirsPart envC2 0 ++ cfgPart envC2 ++ sysPart envC2 0)
  ∧ sysPart envC2 4 = []
  ∧ sysPart envC2 0 = [⟨[]⟩] :=
  ⟨(collect_attr_files_precedence envC2 0 (fun s b => ⟨some ⟨[]⟩, rfl⟩)
      (fun e h => nomatch h)).1,
   (collect_attr_files_precedence envC2 4 (fun s b => ⟨some ⟨[]⟩, rfl⟩)
      (fun e h => nomatch h)).2.1 (by decide),
   (collect_attr_files_precedence envC2 0 (fun s b => ⟨some ⟨[]⟩, rfl⟩)
      (fun e h => nomatch h)).2.2 "/etc/gitattributes" ⟨[]⟩ (by decide) rfl rfl⟩

/-- C9: Missing-source absorption: when no source produces a hard error —
missing sources answer ok-`none` (the cache's negative entry) and a
missing system file reports NOT_FOUND, which collection absorbs —
collection succeeds, so no NOT_FOUND reaches the caller; and when every
source is missing, the walk still completes and contributes nothing at
all. -/
theorem collect_attr_files_missing (env : CollectEnv) (flags : Nat) :
    ((∀ s b, ∃ f, env.cacheGet s b = Except.ok f) →
     (∀ e, env.systemLookup = Except.error e → e = GIT_ENOTFOUND) →
     ∃ l, collect_attr_files env flags = Except.ok l)
  ∧ ((∀ s b, env.cacheGet s b = Except.ok none) →
     (∀ e, env.systemLookup = Except.error e → e = GIT_ENOTFOUND) →
     collect_attr_files env flags = Except.ok []) := by
  constructor
  · intro hok hsys
    exact ⟨_, collect_attr_files_shape env flags hok hsys⟩
  · intro hall hsys
    rw [collect_attr_files_shape env flags (fun s b => ⟨none, hall s b⟩) hsys]
    have hi : infoPart env = [] := by simp [infoPart, hall, cacheContrib]
    have hd : dirsPart env flags = [] := by
      simp [dirsPart, hall, cacheContrib, attr_flatMap_const_nil]
    have hc : cfgPart env = [] := by
      rw [cfgPart]
      cases env.cfgAttrFile <;> simp [hall, cacheContrib]
    have hsp : sysPart env flags = [] := by
      rw [sysPart]
      by_cases ht : flags.testBit 2
      · rw [if_pos ht]
      · rw [if_neg ht]
        cases env.systemLookup <;> simp [hall, cacheContrib]
    rw [hi, hd, hc, hsp]
    rfl

/-- A concrete collector environment in which every source is missing. -/
def envC9 : CollectEnv :=
  { cacheGet := fun _ _ => Except.ok none
    workdir := none
    hasIndex := true
    infoDir := "/g/info"
    dirs := ["/r/a"]
    cfgAttrFile := some "/cfg"
    systemLookup := Except.error GIT_ENOTFOUND }

/-- C9 witness: with every source missing (including a NOT_FOUND system
lookup), collection succeeds with the empty vector. -/
theorem collect_attr_files_missing_witness :
    collect_attr_files envC9 1 = Except.ok [] :=
  (collect_attr_files_missing envC9 1).2 (fun s b => rfl)
    (fun e h => (Except.error.inj h).symm)

/-- C6: Per-directory source order: with both a work tree and an index
available, the low two flag bits pick the backends — FILE_THEN_INDEX (0)
gives working-tree file then index blob, INDEX_THEN_FILE (1) gives index
blob then working-tree file, INDEX_ONLY (2) gives the index blob only —
and the INCLUDE_HEAD bit appends the HEAD commit's blob after those. -/
theorem attr_decide_sources_order (flags : Nat) :
    (flags % 4 = 0 → attr_decide_sources flags true true
        = [SourceType.file, SourceType.index]
          ++ (if flags.testBit 3 then [SourceType.commit] else []))
  ∧ (flags % 4 = 1 → attr_decide_sources flags true true
        = [SourceType.index, SourceType.file]
          ++ (if flags.testBit 3 then [SourceType.commit] else []))
  ∧ (flags % 4 = 2 → attr_decide_sources flags true true
        = [SourceType.index]
          ++ (if flags.testBit 3 then [SourceType.commit] else [])) := by
  refine ⟨fun h => ?_, fun h => ?_, fun h => ?_⟩ <;>
    simp [attr_decide_sources, h]

/-- C6 witness: FILE_THEN_INDEX with INCLUDE_HEAD (8), INDEX_THEN_FILE
with INCLUDE_HEAD (9), and INDEX_ONLY with NO_SYSTEM (6, whose bit 2
does not affect the per-directory backends). -/
theorem attr_decide_sources_order_witness :
    attr_decide_sources 8 true true
        = [SourceType.file, SourceType.index, SourceType.commit]
  ∧ attr_decide_sources 9 true true
        = [SourceType.index, SourceType.file, SourceType.commit]
  ∧ attr_decide_sources 6 true true = [SourceType.index] :=
  ⟨((attr_decide_sources_order 8).1 (by decide)).trans (by decide),
   ((attr_decide_sources_order 9).2.1 (by decide)).trans (by decide),
   ((attr_decide_sources_order 6).2.2 (by decide)).trans (by decide)⟩

/-- A concrete collector environment: work tree rooted at `/w/`, walk
visiting the nested directory `/w/sub/` and then the root `/w/`, index
present. -/
def envC5 : CollectEnv :=
  { cacheGet := fun _ _ => Except.ok none
    workdir := some "/w/"
    hasIndex := true
    infoDir := "/g/info"
    dirs := ["/w/sub/", "/w/"]
    cfgAttrFile := none
    systemLookup := Except.error GIT_ENOTFOUND }

/-- C5 counterexample: with a work tree at `/w/` and INDEX_THEN_FILE
flags (1), the walk's step at the root directory requests the INDEX blob
of `.gitattributes` with `allow_macros = true`: `push_one_attr` computes
a single `allow_macros` for the whole directory (workdir equality) and
applies it to every backend it pushes there, index and commit blobs
included — so index blobs of `.gitattributes` are not always parsed with
macros disallowed. -/
theorem push_one_attr_index_macro_counterexample :
    (dirSource SourceType.index "/w/", true) ∈ collect_requests envC5 1 := by decide

/-- C5 (amended): macro trust during collection: `allow_macros` is true
for the `$GIT_DIR/info` file, the configured extra file and the system
file, and for every source pushed at the top-of-worktree directory —
whether working-tree file, index blob or commit blob — while every
request carrying `allow_macros = false` is a per-directory request at a
non-root directory.  (The original claim fails only in that index and
commit blobs at the work-tree root are pushed with macros allowed, since
`push_one_attr` applies one per-directory trust decision to all
backends.) -/
theorem collect_requests_macro_trust (env : CollectEnv) (flags : Nat) :
    (∀ s, (s, false) ∈ collect_requests env flags →
       ∃ st d, d ∈ env.dirs ∧ s = dirSource st d ∧ env.workdir ≠ some d)
  ∧ (∀ d st, d ∈ env.dirs →
       st ∈ attr_decide_sources flags env.workdir.isSome env.hasIndex →
       env.workdir = some d →
       (dirSource st d, true) ∈ collect_requests env flags) := by
  constructor
  · intro s hs
    rw [collect_requests] at hs
    rcases List.mem_append.mp hs with hs | hs
    · rcases List.mem_append.mp hs with hs | hs
      · rcases List.mem_append.mp hs with hs | hs
        · simp at hs
        · rcases List.mem_flatMap.mp hs with ⟨d, hd, hmem⟩
          rcases List.mem_map.mp hmem with ⟨st, hst, heq⟩
          have h12 := heq
          rw [Prod.mk.injEq] at h12
          obtain ⟨h1, h2⟩ := h12
          exact ⟨st, d, hd, h1.symm, dirAllow_false env d h2⟩
      · cases hcfg : env.cfgAttrFile with
        | none => rw [hcfg] at hs; simp at hs
        | some cfg => rw [hcfg] at hs; simp at hs
    · by_cases ht : flags.testBit 2
      · rw [if_pos ht] at hs
        simp at hs
      · rw [if_neg ht] at hs
        cases hsl : env.systemLookup with
        | ok p => rw [hsl] at hs; simp at hs
        | error e => rw [hsl] at hs; simp at hs
  · intro d st hd hst hw
    rw [collect_requests]
    refine List.mem_append.mpr (Or.inl (List.mem_append.mpr (Or.inl
      (List.mem_append.mpr (Or.inr ?_)))))
    refine List.mem_flatMap.mpr ⟨d, hd, ?_⟩
    refine List.mem_map.mpr ⟨st, hst, ?_⟩
    rw [dirAllow_true env d hw]

/-- C5 witness: in `envC5` with INDEX_THEN_FILE and INCLUDE_HEAD flags
(9), an untrusted request is located at the nested directory, and the
HEAD commit blob at the root is requested with macros allowed. -/
theorem collect_requests_macro_trust_witness :
    (∃ st d, d ∈ envC5.dirs ∧ dirSource SourceType.file "/w/sub/" = dirSource st d
       ∧ envC5.workdir ≠ some d)
  ∧ (dirSource SourceType.commit "/w/", true) ∈ collect_requests envC5 9 :=
  ⟨(collect_requests_macro_trust envC5 9).1 (dirSource SourceType.file "/w/sub/")
      (by decide),
   (collect_requests_macro_trust envC5 9).2 "/w/" SourceType.commit (by decide)
      (by decide) rfl⟩
